import Mathlib

/-!
Formal model of the SKU resolution and batched-reconciliation engine of
the `go-tactical-inventory-uploader` service (`main.py`, FastAPI variant
with the variation index, dry-run preview and audit logging).

Pure data transformations are translated directly from the source.  HTTP
effects are made explicit:

* catalog reads performed by the resolver are modelled by a `Catalog`
  value (exact-match simple-product lookup plus the list of variable
  parents with their variations), and every `_wc_get` page fetch is
  counted so that "no scan was triggered" is expressible;
* the `/apply` endpoint's collaborators (`resolve_sku`,
  `batch_update_products`, `batch_update_variations`, `json.dumps`) are
  an effect oracle `Env` with explicit oracle state, and every batch
  write the endpoint dispatches is recorded as a `NetCall`.
-/

/-- Whitespace test used by Python `str.strip()`, modelled by
`Char.isWhitespace`. -/
def isWS (c : Char) : Bool := c.isWhitespace

/-- Model of Python `str.strip()` on the underlying character list:
drop whitespace from the front, then from the back. -/
def stripL (l : List Char) : List Char :=
  ((l.dropWhile isWS).reverse.dropWhile isWS).reverse

/-- Model of Python `str.strip()` for `String`. -/
def pyStrip (s : String) : String := ⟨stripL s.data⟩

/-- Structural worker for `chunksOf`: the first argument is fuel bounding
the number of chunks still to cut (one chunk consumes at least one element
when the chunk size is positive, so `l.length` fuel always suffices). -/
def chunksGo (n : Nat) : Nat → List α → List (List α)
  | 0, _ => []
  | _ + 1, [] => []
  | fuel + 1, x :: xs => (x :: xs).take n :: chunksGo n fuel ((x :: xs).drop n)

/-- Fixed-size slicing of a list, as done by the stride loops
`for i in range(0, len(l), n): l[i:i+n]` and by page-at-a-time API
pagination in the source. -/
def chunksOf (n : Nat) (l : List α) : List (List α) :=
  if n = 0 then [] else chunksGo n l.length l

/-- One variation of a variable product, as returned by the catalog API:
`sku` may be missing (`v.get("sku")` can be `None`). -/
structure Variation where
  sku : Option String
  id : Nat
deriving DecidableEq

/-- One variable (parent) product with its variations. -/
structure Parent where
  id : Nat
  variations : List Variation
deriving DecidableEq

/-- The remote catalog as seen through the REST API: the server-side
exact-match SKU filter for simple/parent products
(`GET /products?sku=...&per_page=1`), and the list of variable products
(paginated by the scanner). -/
structure Catalog where
  simpleBySku : String → Option Nat
  parents : List Parent

/-- The process-wide `VARIATION_INDEX : Dict[str, Tuple[int, int]]`,
as an insertion-ordered association list mapping a SKU to
`(parent_id, variation_id)`, with Python-dict overwrite semantics. -/
abbrev Index := List (String × Nat × Nat)

/-- Dictionary lookup, `VARIATION_INDEX[sku]` / `sku in VARIATION_INDEX`. -/
def lookupIdx : Index → String → Option (Nat × Nat)
  | [], _ => none
  | (k, v) :: t, s => if k = s then some v else lookupIdx t s

/-- Dictionary assignment `VARIATION_INDEX[sku] = (parent_id, v["id"])`:
overwrite in place if the key exists, else append. -/
def insertIdx : Index → String → Nat × Nat → Index
  | [], k, v => [(k, v)]
  | (k', v') :: t, k, v => if k' = k then (k, v) :: t else (k', v') :: insertIdx t k v

/-- Insert one fetched page of variations into the index: for each `v`,
`vsku = (v.get("sku") or "").strip()`, and only a non-empty `vsku` is
indexed (`if vsku: VARIATION_INDEX[vsku] = (parent_id, v["id"])`). -/
def insertVars (pid : Nat) (idx : Index) (vs : List Variation) : Index :=
  vs.foldl (fun i v =>
    let s := pyStrip (v.sku.getD "")
    if s = "" then i else insertIdx i s (pid, v.id)) idx

/-- Inner pagination loop of `find_variation_by_sku_global` over one
parent's variation pages (`per_page=100`).  After inserting each fetched
page it checks `if sku in VARIATION_INDEX: return VARIATION_INDEX[sku]`.
Returns the result, the updated index, and the number of page fetches
performed (the loop ends on an extra empty-page fetch). -/
def scanVarPages (pid : Nat) (sku : String) : Index → List (List Variation) → Option (Nat × Nat) × Index × Nat
  | idx, [] => (none, idx, 1)
  | idx, pg :: rest =>
    let idx' := insertVars pid idx pg
    match lookupIdx idx' sku with
    | some r => (some r, idx', 1)
    | none =>
      let (res, idx2, c) := scanVarPages pid sku idx' rest
      (res, idx2, c + 1)

/-- Loop over the parents of one fetched page of variable products: each
parent's variations are scanned page by page; a hit returns immediately. -/
def scanParentList (sku : String) : Index → List Parent → Option (Nat × Nat) × Index × Nat
  | idx, [] => (none, idx, 0)
  | idx, p :: rest =>
    match scanVarPages p.id sku idx (chunksOf 100 p.variations) with
    | (some r, idx', c) => (some r, idx', c)
    | (none, idx', c) =>
      let (res, idx2, c2) := scanParentList sku idx' rest
      (res, idx2, c + c2)

/-- Outer pagination loop of `find_variation_by_sku_global` over pages of
variable products (`per_page=50`); each iteration costs one page fetch and
the loop ends on an empty-page fetch. -/
def scanOuter (sku : String) : Index → List (List Parent) → Option (Nat × Nat) × Index × Nat
  | idx, [] => (none, idx, 1)
  | idx, pg :: rest =>
    match scanParentList sku idx pg with
    | (some r, idx', c) => (some r, idx', 1 + c)
    | (none, idx', c) =>
      let (res, idx2, c2) := scanOuter sku idx' rest
      (res, idx2, 1 + c + c2)

/-- Model of `find_variation_by_sku_global`: a cache hit returns at once
(zero page fetches); otherwise the full rebuild scan runs.  The third
component counts the `_wc_get` page fetches the call performs. -/
def find_variation_by_sku_global (cat : Catalog) (idx : Index) (sku : String) : Option (Nat × Nat) × Index × Nat :=
  match lookupIdx idx sku with
  | some r => (some r, idx, 0)
  | none => scanOuter sku idx (chunksOf 50 cat.parents)

/-- Model of `find_simple_or_parent_by_sku`: the catalog's server-side
exact-match SKU filter, first hit or nothing. -/
def find_simple_or_parent_by_sku (cat : Catalog) (sku : String) : Option Nat :=
  cat.simpleBySku sku

/-- Result of `resolve_sku`: `("product", id, None)` or
`("variation", variation_id, parent_id)`. -/
inductive Resolved where
  | product (id : Nat)
  | variation (id : Nat) (parentId : Nat)
deriving DecidableEq

/-- Model of `resolve_sku`: try the simple/parent product lookup, then the
global variation index.  Returns the resolution, the resulting index, and
the number of catalog GETs performed (the simple lookup counts as one). -/
def resolve_sku (cat : Catalog) (idx : Index) (sku : String) : Option Resolved × Index × Nat :=
  match find_simple_or_parent_by_sku cat sku with
  | some pid => (some (Resolved.product pid), idx, 1)
  | none =>
    match find_variation_by_sku_global cat idx sku with
    | (some (par, vid), idx', c) => (some (Resolved.variation vid par), idx', 1 + c)
    | (none, idx', c) => (none, idx', 1 + c)

/-- Effect of a complete, non-short-circuited rebuild scan on the index:
every variation of every variable parent with a non-empty trimmed SKU is
inserted, in catalog order. -/
def insertAllParents (idx : Index) (ps : List Parent) : Index :=
  ps.foldl (fun i p => insertVars p.id i p.variations) idx

/-- Index well-formedness used by the invariant claims: every key is a
non-empty, whitespace-trimmed string. -/
def goodKeys (idx : Index) : Prop :=
  ∀ kv ∈ idx, kv.1 ≠ "" ∧ pyStrip kv.1 = kv.1

/-- Partial-update document built by the payload builders.  Absent keys of
the Python dict are `none`. -/
structure UpdateItem where
  id : Nat
  manage_stock : Option Bool
  stock_quantity : Option Int
  stock_status : Option String
  regular_price : Option String
  sale_price : Option String
deriving DecidableEq

/-- The builders' local `clean`: `None` stays absent, otherwise strip and
treat the empty result as absent. -/
def clean (v : Option String) : Option String :=
  v.bind (fun s => let t := pyStrip s; if t = "" then none else some t)

/-- Model of `build_update_item_for_product`. -/
def build_update_item_for_product (prod_id : Nat) (qty : Option Int) (rp sp : Option String) : UpdateItem :=
  let base : UpdateItem :=
    { id := prod_id, manage_stock := none, stock_quantity := none,
      stock_status := none, regular_price := none, sale_price := none }
  let item :=
    match qty with
    | none => base
    | some q0 =>
      let q := max 0 q0
      { base with
        manage_stock := some true
        stock_quantity := some q
        stock_status := some (if q > 0 then "instock" else "outofstock") }
  let rp := clean rp
  let sp := clean sp
  let item :=
    match rp with
    | none => item
    | some r => { item with regular_price := some r }
  match sp with
  | some s => { item with sale_price := some s }
  | none =>
    match rp with
    | some _ => { item with sale_price := some "" }
    | none => item

/-- Model of `build_update_item_for_variation` (structurally identical to
the product builder in the source, duplicated there as here). -/
def build_update_item_for_variation (variation_id : Nat) (qty : Option Int) (rp sp : Option String) : UpdateItem :=
  let base : UpdateItem :=
    { id := variation_id, manage_stock := none, stock_quantity := none,
      stock_status := none, regular_price := none, sale_price := none }
  let item :=
    match qty with
    | none => base
    | some q0 =>
      let q := max 0 q0
      { base with
        manage_stock := some true
        stock_quantity := some q
        stock_status := some (if q > 0 then "instock" else "outofstock") }
  let rp := clean rp
  let sp := clean sp
  let item :=
    match rp with
    | none => item
    | some r => { item with regular_price := some r }
  match sp with
  | some s => { item with sale_price := some s }
  | none =>
    match rp with
    | some _ => { item with sale_price := some "" }
    | none => item

/-- One input row of `/apply` (an element of `json.loads(raw)`): the SKU
string, the quantity (already an integer after the upstream
`pd.to_numeric(...).fillna(0).astype(int)` normalisation), and the raw
optional price cells. -/
structure Row where
  sku : String
  quantity : Int
  regular_price : Option String
  sale_price : Option String
deriving DecidableEq

/-- The `/apply` form flags. -/
structure Options where
  do_stock : Bool
  do_prices : Bool
  dry_run : Bool
deriving DecidableEq

/-- One audit-log row, with the fields written by the source's log dicts;
Python's `""` placeholders for absent ids become `none`. -/
structure LogRecord where
  sku : String
  action : String
  message : String
  kind : String
  parent_id : Option Nat
  object_id : Option Nat
  quantity : Option Int
  regular_price : Option String
  sale_price : Option String
deriving DecidableEq

/-- Result of `batch_update_products` / `batch_update_variations`:
`{"updated": n, "errors": [...]}` (a failed HTTP call yields zero updates
plus one error string; a success yields `len(data["update"])` updates). -/
structure BatchResult where
  updated : Nat
  errors : List String
deriving DecidableEq

/-- A network write dispatched by the reconciler: one batch PUT to the
product endpoint or to one parent's variation endpoint. -/
inductive NetCall where
  | products (payload : List UpdateItem)
  | variations (parent : Nat) (payload : List UpdateItem)
deriving DecidableEq

/-- The effectful collaborators of the `/apply` endpoint, as an oracle
with explicit state `σ`: `resolve_sku` (which may raise — `Except.error`
carries `str(e)` — and may mutate process state), the two batch-update
wrappers, and `json.dumps` for the dry-run log message. -/
structure Env (σ : Type) where
  resolveSku : σ → String → (Except String (Option Resolved)) × σ
  batchProducts : σ → List UpdateItem → BatchResult × σ
  batchVariations : σ → Nat → List UpdateItem → BatchResult × σ
  dumps : UpdateItem → String

/-- Mutable state of the `/apply` row loop. -/
structure LoopState (σ : Type) where
  s : σ
  not_found : List String
  errors : List String
  log_rows : List LogRecord
  product_payload : List UpdateItem
  variations_by_parent : List (Nat × List UpdateItem)
deriving DecidableEq

/-- Initial loop state. -/
def initState (s₀ : σ) : LoopState σ :=
  { s := s₀, not_found := [], errors := [], log_rows := [],
    product_payload := [], variations_by_parent := [] }

/-- Python's `dict.setdefault(parent_id, []).append(item)` on an
insertion-ordered bucket map. -/
def bucketAppend : List (Nat × List UpdateItem) → Nat → UpdateItem → List (Nat × List UpdateItem)
  | [], k, it => [(k, [it])]
  | (k', its) :: t, k, it =>
    if k' = k then (k', its ++ [it]) :: t else (k', its) :: bucketAppend t k it

/-- One iteration of the `/apply` row loop (source lines 248–276): strip
the SKU and skip empty ones; derive `qty`/`rp`/`sp` from the flags;
resolve; log `not_found`, log `would_update` (dry run) or accumulate into
the payload buckets; a raised exception is caught and recorded as an
`error` log entry keyed by the SKU plus an `f"{sku}: {e}"` error string. -/
def processRow (E : Env σ) (opts : Options) (st : LoopState σ) (row : Row) : LoopState σ :=
  let sku := pyStrip row.sku
  if sku = "" then st
  else
    let qty : Option Int := if opts.do_stock then some row.quantity else none
    let rp : Option String := if opts.do_prices then row.regular_price else none
    let sp : Option String := if opts.do_prices then row.sale_price else none
    match E.resolveSku st.s sku with
    | (Except.error e, s') =>
      { st with
        s := s'
        errors := st.errors ++ [sku ++ ": " ++ e]
        log_rows := st.log_rows ++ [⟨sku, "error", e, "", none, none, qty, rp, sp⟩] }
    | (Except.ok none, s') =>
      { st with
        s := s'
        not_found := st.not_found ++ [sku]
        log_rows := st.log_rows ++ [⟨sku, "not_found", "SKU לא נמצא", "", none, none, qty, rp, sp⟩] }
    | (Except.ok (some (Resolved.product pid)), s') =>
      if opts.dry_run then
        let payload := build_update_item_for_product pid qty rp sp
        { st with
          s := s'
          log_rows := st.log_rows ++
            [⟨sku, "would_update", E.dumps payload, "product", none, some pid, qty, rp, sp⟩] }
      else
        { st with
          s := s'
          product_payload := st.product_payload ++ [build_update_item_for_product pid qty rp sp] }
    | (Except.ok (some (Resolved.variation vid par)), s') =>
      if opts.dry_run then
        let payload := build_update_item_for_variation vid qty rp sp
        { st with
          s := s'
          log_rows := st.log_rows ++
            [⟨sku, "would_update", E.dumps payload, "variation", some par, some vid, qty, rp, sp⟩] }
      else
        { st with
          s := s'
          variations_by_parent := bucketAppend st.variations_by_parent par
            (build_update_item_for_variation vid qty rp sp) }

/-- The whole `/apply` row loop. -/
def applyRows (E : Env σ) (opts : Options) (st : LoopState σ) (rows : List Row) : LoopState σ :=
  rows.foldl (processRow E opts) st

/-- Flush loop `for i in range(0, len(product_payload), 100)`: one batch
product call per chunk, accumulating updated counts, batch error strings
and the dispatched calls. -/
def flushProducts (E : Env σ) : σ → List (List UpdateItem) → σ × Nat × List String × List NetCall
  | s, [] => (s, 0, [], [])
  | s, c :: rest =>
    let (res, s') := E.batchProducts s c
    let (s'', u, es, cs) := flushProducts E s' rest
    (s'', res.updated + u, res.errors ++ es, NetCall.products c :: cs)

/-- Flush of one parent's variation bucket in chunks of 100. -/
def flushVariationChunks (E : Env σ) (pid : Nat) : σ → List (List UpdateItem) → σ × Nat × List String × List NetCall
  | s, [] => (s, 0, [], [])
  | s, c :: rest =>
    let (res, s') := E.batchVariations s pid c
    let (s'', u, es, cs) := flushVariationChunks E pid s' rest
    (s'', res.updated + u, res.errors ++ es, NetCall.variations pid c :: cs)

/-- Flush of all variation buckets, parent by parent. -/
def flushVariationBuckets (E : Env σ) : σ → List (Nat × List UpdateItem) → σ × Nat × List String × List NetCall
  | s, [] => (s, 0, [], [])
  | s, (pid, vlist) :: rest =>
    let (s', u1, e1, c1) := flushVariationChunks E pid s (chunksOf 100 vlist)
    let (s'', u2, e2, c2) := flushVariationBuckets E s' rest
    (s'', u1 + u2, e1 ++ e2, c1 ++ c2)

/-- The unconditional `updated` audit-log records appended after the
flush (source lines 291–295): one per accumulated product item, then one
per accumulated variation item, in bucket order. -/
def updatedLogs (st : LoopState σ) : List LogRecord :=
  st.product_payload.map (fun p =>
    ⟨"", "updated", "מוצר עודכן", "product", none, some p.id,
      p.stock_quantity, p.regular_price, p.sale_price⟩) ++
  (st.variations_by_parent.map (fun pv =>
    pv.2.map (fun v =>
      (⟨"", "updated", "וריאציה עודכנה", "variation", some pv.1, some v.id,
        v.stock_quantity, v.regular_price, v.sale_price⟩ : LogRecord)))).flatten

/-- Outcome of one `/apply` run, before summary truncation: the aggregate
counters, the audit-log rows, and every batch write that was dispatched. -/
structure ApplyResult where
  updated_total : Nat
  not_found : List String
  errors : List String
  log_rows : List LogRecord
  calls : List NetCall
deriving DecidableEq

/-- Model of the `/apply` endpoint (source lines 228–309): run the row
loop; in dry-run mode nothing is flushed and no write is dispatched;
otherwise flush the product bucket in chunks of 100, then each parent's
variation bucket in chunks of 100, and append one `updated` log record
per accumulated payload item.  (The CSV file write and its random name
are external I/O and not modelled.) -/
def applyRun (E : Env σ) (opts : Options) (s₀ : σ) (rows : List Row) : ApplyResult × σ :=
  let st := applyRows E opts (initState s₀) rows
  if opts.dry_run then
    ({ updated_total := 0, not_found := st.not_found, errors := st.errors,
       log_rows := st.log_rows, calls := [] }, st.s)
  else
    let (s1, u1, e1, c1) := flushProducts E st.s (chunksOf 100 st.product_payload)
    let (s2, u2, e2, c2) := flushVariationBuckets E s1 st.variations_by_parent
    let updLogs : List LogRecord := updatedLogs st
    ({ updated_total := u1 + u2, not_found := st.not_found,
       errors := st.errors ++ e1 ++ e2,
       log_rows := st.log_rows ++ updLogs, calls := c1 ++ c2 }, s2)

/-- The user-visible run summary (source line 308). -/
structure Summary where
  updated_total : Nat
  not_found : List String
  not_found_count : Nat
  errors : List String
  errors_count : Nat
  dry_run : Bool
deriving DecidableEq

/-- Summary construction: `not_found[:50]`, `errors[:10]`, full counts. -/
def mkSummary (r : ApplyResult) (dry : Bool) : Summary :=
  { updated_total := r.updated_total, not_found := r.not_found.take 50,
    not_found_count := r.not_found.length, errors := r.errors.take 10,
    errors_count := r.errors.length, dry_run := dry }

/-- Summary returned by one `/apply` run. -/
def applySummary (E : Env σ) (opts : Options) (s₀ : σ) (rows : List Row) : Summary :=
  mkSummary (applyRun E opts s₀ rows).1 opts.dry_run

/-- Number of log records carrying a given action. -/
def countActions (a : String) (l : List LogRecord) : Nat :=
  (l.filter (fun r => r.action == a)).length

/-- Payload size of a dispatched batch call. -/
def callSize : NetCall → Nat
  | NetCall.products p => p.length
  | NetCall.variations _ p => p.length

/-- Sizes of the dispatched batch *product* calls, in dispatch order. -/
def productCallSizes (cs : List NetCall) : List Nat :=
  cs.filterMap (fun c =>
    match c with
    | NetCall.products p => some p.length
    | NetCall.variations _ _ => none)

/-- Total number of items accumulated in the variation buckets. -/
def sumSizes (buckets : List (Nat × List UpdateItem)) : Nat :=
  (buckets.map (fun pv => pv.2.length)).sum

/-- Column normalisation applied by `/preview` before the price check:
the SKU column and the price columns are stripped cell-wise. -/
def strippedRows (rows : List Row) : List Row :=
  rows.map (fun r =>
    { r with
      sku := pyStrip r.sku
      regular_price := r.regular_price.map pyStrip
      sale_price := r.sale_price.map pyStrip })

/-- Model of `/preview`'s `invalid_price(row)` (source lines 198–203):
if both price cells are truthy (present and non-empty), a row is invalid
when `float(sale) > float(regular)` and also when either value fails to
parse (the bare `except` branch).  `parseF` models Python `float()` on
the number strings of interest. -/
def invalid_price (parseF : String → Option ℚ) (r : Row) : Bool :=
  match r.regular_price, r.sale_price with
  | some rp, some sp =>
    if rp != "" && sp != "" then
      match parseF sp, parseF rp with
      | some sv, some rv => decide (rv < sv)
      | _, _ => true
    else false
  | _, _ => false

/-- Model of `/preview`'s price-validation stage under `do_prices`
(source lines 195–207): strip the columns, drop the invalid rows, and
report how many were dropped (`int(bad.sum())`). -/
def previewValidate (parseF : String → Option ℚ) (rows : List Row) : List Row × Nat :=
  let stripped := strippedRows rows
  (stripped.filter (fun r => ! invalid_price parseF r),
   stripped.countP (invalid_price parseF))

/-- Both price cells truthy in the Python sense: present and non-empty. -/
def bothPresentB (r : Row) : Bool :=
  match r.regular_price, r.sale_price with
  | some rp, some sp => rp != "" && sp != ""
  | _, _ => false

/-- The sale price parses strictly above the regular price. -/
def parsesGTB (parseF : String → Option ℚ) (r : Row) : Bool :=
  match parseF ((r.sale_price).getD ""), parseF ((r.regular_price).getD "") with
  | some sv, some rv => decide (rv < sv)
  | _, _ => false

/-- Both prices parse and the sale price does not exceed the regular one. -/
def parsesLEB (parseF : String → Option ℚ) (r : Row) : Bool :=
  match parseF ((r.sale_price).getD ""), parseF ((r.regular_price).getD "") with
  | some sv, some rv => decide (sv ≤ rv)
  | _, _ => false

/-! Concrete instances used by witnesses and counterexamples. -/

/-- A tiny catalog: no simple product matches any SKU; one variable parent
(id 1) with a single variation of SKU "B" (id 2). -/
def cexCatalog : Catalog := ⟨fun _ => none, [⟨1, [⟨some "B", 2⟩]⟩]⟩

/-- Oracle whose resolution raises on the SKU "bad" and reports every
other SKU as unresolved. -/
def envThrowBad : Env Unit :=
  { resolveSku := fun s k => (if k = "bad" then Except.error "boom" else Except.ok none, s)
    batchProducts := fun s _ => ({ updated := 0, errors := [] }, s)
    batchVariations := fun s _ _ => ({ updated := 0, errors := [] }, s)
    dumps := fun _ => "{}" }

/-- Oracle that resolves every SKU to product 7 and whose batch product
endpoint fails with an HTTP 500. -/
def envBatchFail : Env Unit :=
  { resolveSku := fun s _ => (Except.ok (some (Resolved.product 7)), s)
    batchProducts := fun s _ => ({ updated := 0, errors := ["500: boom"] }, s)
    batchVariations := fun s _ _ => ({ updated := 0, errors := [] }, s)
    dumps := fun _ => "{}" }

/-- Stateless resolution table used by the dry-run witness: "p" is a
product, everything else is unresolved. -/
def tableP : String → Option Resolved :=
  fun k => if k = "p" then some (Resolved.product 7) else none

/-- Oracle wrapping `tableP`, with succeeding batch endpoints. -/
def envTableP : Env Unit :=
  { resolveSku := fun s k => (Except.ok (tableP k), s)
    batchProducts := fun s l => ({ updated := l.length, errors := [] }, s)
    batchVariations := fun s _ l => ({ updated := l.length, errors := [] }, s)
    dumps := fun _ => "{}" }

/-- Oracle that resolves every SKU to product 7, with succeeding batch
endpoints. -/
def envAllProducts : Env Unit :=
  { resolveSku := fun s _ => (Except.ok (some (Resolved.product 7)), s)
    batchProducts := fun s l => ({ updated := l.length, errors := [] }, s)
    batchVariations := fun s _ l => ({ updated := l.length, errors := [] }, s)
    dumps := fun _ => "{}" }

/-- Options: stock only, dry run. -/
def optsDry : Options := ⟨true, false, true⟩

/-- Options: stock only, live run. -/
def optsWet : Options := ⟨true, false, false⟩

/-- 250 identical resolvable product rows. -/
def rows250 : List Row := List.replicate 250 ⟨"a", 1, none, none⟩

/-- Number parser used by the preview witness (a fragment of Python
`float()` large enough for the spec's example). -/
def parseF0 : String → Option ℚ :=
  fun s => if s = "10" then some 10 else if s = "15" then some 15
    else if s = "8" then some 8 else none

/-- The `error` audit-log record written when resolving/building a row
raises: keyed by the row's stripped SKU, carrying `str(e)` and the row's
option-derived quantity and prices. -/
def errorRecordOf (opts : Options) (row : Row) (e : String) : LogRecord :=
  ⟨pyStrip row.sku, "error", e, "", none, none,
    if opts.do_stock then some row.quantity else none,
    if opts.do_prices then row.regular_price else none,
    if opts.do_prices then row.sale_price else none⟩

/-- The loop state after the `except` branch handled a raised resolution
for one row: oracle state advanced, one error string and one `error` log
record appended, everything else untouched. -/
def errorStep (E : Env σ) (opts : Options) (st : LoopState σ) (row : Row) (e : String) : LoopState σ :=
  { st with
    s := (E.resolveSku st.s (pyStrip row.sku)).2
    errors := st.errors ++ [pyStrip row.sku ++ ": " ++ e]
    log_rows := st.log_rows ++ [errorRecordOf opts row e] }

/-! Lemmas about the strip model. -/

/-- Dropping a satisfied front is idempotent. -/
theorem dropWhile_self_idem (p : α → Bool) : ∀ l : List α, (l.dropWhile p).dropWhile p = l.dropWhile p
  | [] => rfl
  | a :: t => by
    by_cases h : p a = true
    · simp only [List.dropWhile_cons, h, if_true]
      exact dropWhile_self_idem p t
    · simp only [List.dropWhile_cons, h, if_false]
      simp [List.dropWhile_cons, h]

/-- The head surviving a `dropWhile` fails the test. -/
theorem dropWhile_head_false (p : α → Bool) : ∀ (l : List α) (a : α) (t : List α), l.dropWhile p = a :: t → p a = false
  | [], a, t, h => by simp at h
  | b :: l, a, t, h => by
    rw [List.dropWhile_cons] at h
    by_cases hb : p b = true
    · rw [if_pos hb] at h
      exact dropWhile_head_false p l a t h
    · rw [if_neg hb] at h
      injection h with h1 _
      subst h1
      simpa using hb

/-- Trailing strip only: reverse, drop, reverse. -/
def stripEnd (l : List Char) : List Char := (l.reverse.dropWhile isWS).reverse

/-- Trailing strip is idempotent. -/
theorem stripEnd_idem (l : List Char) : stripEnd (stripEnd l) = stripEnd l := by
  unfold stripEnd
  rw [List.reverse_reverse, dropWhile_self_idem]

/-- Trailing strip preserves a whitespace-free front. -/
theorem stripEnd_keeps_front (l : List Char) (h : l.dropWhile isWS = l) :
    (stripEnd l).dropWhile isWS = stripEnd l := by
  cases l with
  | nil => rfl
  | cons a t =>
    have ha : isWS a = false := dropWhile_head_false isWS (a :: t) a t h
    unfold stripEnd
    rw [List.reverse_cons, List.dropWhile_append]
    by_cases he : (t.reverse.dropWhile isWS).isEmpty = true
    · rw [if_pos he]
      simp [List.dropWhile_cons, ha]
    · rw [if_neg he]
      rw [List.reverse_append]
      have hne : t.reverse.dropWhile isWS ≠ [] := by
        intro hx
        rw [hx] at he
        simp at he
      obtain ⟨b, u, hb⟩ := List.exists_cons_of_ne_nil hne
      rw [hb]
      simp [List.dropWhile_cons, ha]

/-- `stripL` in terms of the front drop and `stripEnd`. -/
theorem stripL_eq (l : List Char) : stripL l = stripEnd (l.dropWhile isWS) := rfl

/-- The whole strip is idempotent. -/
theorem stripL_idem (l : List Char) : stripL (stripL l) = stripL l := by
  rw [stripL_eq l, stripL_eq]
  rw [stripEnd_keeps_front (l.dropWhile isWS) (dropWhile_self_idem isWS l)]
  exact stripEnd_idem _

/-- Python strip is idempotent. -/
theorem pyStrip_idem (s : String) : pyStrip (pyStrip s) = pyStrip s := by
  unfold pyStrip
  exact congrArg String.mk (stripL_idem s.data)

/-! Lemmas about the variation index and chunking. -/

/-- Lookup after a dict assignment. -/
theorem lookupIdx_insertIdx (i : Index) (k : String) (v : Nat × Nat) (k' : String) :
    lookupIdx (insertIdx i k v) k' = if k' = k then some v else lookupIdx i k' := by
  induction i with
  | nil =>
    by_cases h : k' = k
    · simp [insertIdx, lookupIdx, h]
    · have h' : ¬ k = k' := fun hx => h hx.symm
      simp [insertIdx, lookupIdx, h, h']
  | cons a t ih =>
    obtain ⟨ka, va⟩ := a
    by_cases hak : ka = k
    · subst hak
      by_cases hk : k' = ka
      · simp [insertIdx, lookupIdx, hk]
      · have hk' : ¬ ka = k' := fun hx => hk hx.symm
        simp [insertIdx, lookupIdx, hk, hk']
    · by_cases hk : ka = k'
      · subst hk
        have hne : ¬ ka = k := hak
        have hne' : ¬ k = ka := fun hx => hak hx.symm
        simp [insertIdx, lookupIdx, hne, hne']
      · simp [insertIdx, lookupIdx, hak, hk, ih]

/-- One step of `insertVars`. -/
theorem insertVars_cons (pid : Nat) (idx : Index) (v : Variation) (vs : List Variation) :
    insertVars pid idx (v :: vs) =
      insertVars pid
        (if pyStrip (v.sku.getD "") = "" then idx
         else insertIdx idx (pyStrip (v.sku.getD "")) (pid, v.id)) vs := by
  simp only [insertVars, List.foldl_cons]

/-- `insertVars` over an appended list. -/
theorem insertVars_append (pid : Nat) (idx : Index) (a b : List Variation) :
    insertVars pid idx (a ++ b) = insertVars pid (insertVars pid idx a) b := by
  simp only [insertVars, List.foldl_append]

/-- A key that no inserted variation carries stays absent. -/
theorem lookupIdx_insertVars_none (pid : Nat) (s : String) :
    ∀ (vs : List Variation) (idx : Index),
      (∀ v ∈ vs, pyStrip (v.sku.getD "") ≠ "" → pyStrip (v.sku.getD "") ≠ s) →
      lookupIdx idx s = none → lookupIdx (insertVars pid idx vs) s = none
  | [], idx, _, hidx => hidx
  | v :: vs, idx, hvs, hidx => by
    rw [insertVars_cons]
    by_cases hk : pyStrip (v.sku.getD "") = ""
    · rw [if_pos hk]
      exact lookupIdx_insertVars_none pid s vs idx (fun w hw => hvs w (List.mem_cons_of_mem _ hw)) hidx
    · rw [if_neg hk]
      refine lookupIdx_insertVars_none pid s vs _ (fun w hw => hvs w (List.mem_cons_of_mem _ hw)) ?_
      rw [lookupIdx_insertIdx]
      have hne : pyStrip (v.sku.getD "") ≠ s := hvs v (List.mem_cons_self _ _) hk
      rw [if_neg (fun hx => hne hx.symm)]
      exact hidx

/-- `insertAllParents` over cons and append. -/
theorem insertAllParents_cons (idx : Index) (p : Parent) (ps : List Parent) :
    insertAllParents idx (p :: ps) = insertAllParents (insertVars p.id idx p.variations) ps := by
  simp only [insertAllParents, List.foldl_cons]

/-- `insertAllParents` distributes over append. -/
theorem insertAllParents_append (idx : Index) (a b : List Parent) :
    insertAllParents idx (a ++ b) = insertAllParents (insertAllParents idx a) b := by
  simp only [insertAllParents, List.foldl_append]

/-- A key carried by no variation of any inserted parent stays absent. -/
theorem lookupIdx_insertAllParents_none (s : String) :
    ∀ (ps : List Parent) (idx : Index),
      (∀ p ∈ ps, ∀ v ∈ p.variations, pyStrip (v.sku.getD "") ≠ "" → pyStrip (v.sku.getD "") ≠ s) →
      lookupIdx idx s = none → lookupIdx (insertAllParents idx ps) s = none
  | [], idx, _, hidx => hidx
  | p :: ps, idx, hps, hidx => by
    rw [insertAllParents_cons]
    exact lookupIdx_insertAllParents_none s ps _
      (fun q hq => hps q (List.mem_cons_of_mem _ hq))
      (lookupIdx_insertVars_none p.id s p.variations idx (hps p (List.mem_cons_self _ _)) hidx)

/-- Fuel irrelevance for the chunking worker. -/
theorem chunksGo_fuel_irrel (n : Nat) (hn : n ≠ 0) :
    ∀ (fuel : Nat) (fuel' : Nat) (l : List α), l.length ≤ fuel → l.length ≤ fuel' →
      chunksGo n fuel l = chunksGo n fuel' l
  | 0, fuel', l, h, h' => by
    have : l = [] := List.eq_nil_of_length_eq_zero (Nat.le_zero.mp h)
    subst this
    cases fuel' <;> rfl
  | fuel + 1, fuel', l, h, h' => by
    cases l with
    | nil => cases fuel' <;> rfl
    | cons x xs =>
      cases fuel' with
      | zero => simp at h'
      | succ f' =>
        show (x :: xs).take n :: chunksGo n fuel ((x :: xs).drop n)
            = (x :: xs).take n :: chunksGo n f' ((x :: xs).drop n)
        have hd : ((x :: xs).drop n).length ≤ xs.length := by
          simp only [List.length_drop, List.length_cons]
          omega
        have h1 : ((x :: xs).drop n).length ≤ fuel := by
          simp only [List.length_cons] at h
          omega
        have h2 : ((x :: xs).drop n).length ≤ f' := by
          simp only [List.length_cons] at h'
          omega
        rw [chunksGo_fuel_irrel n hn fuel f' _ h1 h2]

/-- Chunking the empty list. -/
theorem chunksOf_nil (n : Nat) : chunksOf n ([] : List α) = [] := by
  unfold chunksOf
  split <;> rfl

/-- Unfolding of `chunksOf` on a non-empty list. -/
theorem chunksOf_cons (n : Nat) (hn : n ≠ 0) (x : α) (xs : List α) :
    chunksOf n (x :: xs) = (x :: xs).take n :: chunksOf n ((x :: xs).drop n) := by
  unfold chunksOf
  rw [if_neg hn, if_neg hn]
  show (x :: xs).take n :: chunksGo n xs.length ((x :: xs).drop n)
      = (x :: xs).take n :: chunksGo n ((x :: xs).drop n).length ((x :: xs).drop n)
  have hd : ((x :: xs).drop n).length ≤ xs.length := by
    simp only [List.length_drop, List.length_cons]
    omega
  rw [chunksGo_fuel_irrel n hn xs.length ((x :: xs).drop n).length _ hd (le_refl _)]

/-- Every chunk is at most the chunk size. -/
theorem chunksOf_length_le (n : Nat) (hn : n ≠ 0) :
    ∀ (l : List α), ∀ c ∈ chunksOf n l, c.length ≤ n
  | [], c, hc => by rw [chunksOf_nil] at hc; simp at hc
  | x :: xs, c, hc => by
    rw [chunksOf_cons n hn] at hc
    rcases List.mem_cons.mp hc with h | h
    · subst h
      simp only [List.length_take]
      omega
    · exact chunksOf_length_le n hn ((x :: xs).drop n) c h
termination_by l => l.length
decreasing_by
  simp only [List.length_drop, List.length_cons]
  omega

/-- Chunks flatten back to the original list. -/
theorem chunksOf_flatten (n : Nat) (hn : n ≠ 0) :
    ∀ (l : List α), (chunksOf n l).flatten = l
  | [] => by rw [chunksOf_nil]; rfl
  | x :: xs => by
    rw [chunksOf_cons n hn]
    show (x :: xs).take n ++ (chunksOf n ((x :: xs).drop n)).flatten = x :: xs
    rw [chunksOf_flatten n hn ((x :: xs).drop n)]
    exact List.take_append_drop n (x :: xs)
termination_by l => l.length
decreasing_by
  simp only [List.length_drop, List.length_cons]
  omega

/-! Lemmas about the rebuild scan. -/

/-- A scan over one parent's pages that can never hit the target SKU
inserts all of that parent's (non-empty-SKU) variations and misses. -/
theorem scanVarPages_no_hit (pid : Nat) (s : String) :
    ∀ (vs : List Variation) (idx : Index),
      (∀ v ∈ vs, pyStrip (v.sku.getD "") ≠ "" → pyStrip (v.sku.getD "") ≠ s) →
      lookupIdx idx s = none →
      (scanVarPages pid s idx (chunksOf 100 vs)).1 = none ∧
      (scanVarPages pid s idx (chunksOf 100 vs)).2.1 = insertVars pid idx vs
  | [], idx, _, _ => by
    rw [chunksOf_nil]
    exact ⟨rfl, rfl⟩
  | x :: xs, idx, hvs, hidx => by
    rw [chunksOf_cons 100 (by decide)]
    have hsub : ∀ v ∈ (x :: xs).take 100, v ∈ x :: xs := fun v hv => List.take_subset _ _ hv
    have hlook : lookupIdx (insertVars pid idx ((x :: xs).take 100)) s = none :=
      lookupIdx_insertVars_none pid s _ idx (fun v hv => hvs v (hsub v hv)) hidx
    have hrec := scanVarPages_no_hit pid s ((x :: xs).drop 100)
      (insertVars pid idx ((x :: xs).take 100))
      (fun v hv => hvs v (List.drop_subset _ _ hv)) hlook
    rcases htr : scanVarPages pid s (insertVars pid idx ((x :: xs).take 100))
        (chunksOf 100 ((x :: xs).drop 100)) with ⟨res, idx2, c⟩
    rw [htr] at hrec
    simp only [scanVarPages, hlook, htr]
    refine ⟨hrec.1, ?_⟩
    have h2 : idx2 = insertVars pid (insertVars pid idx ((x :: xs).take 100)) ((x :: xs).drop 100) := hrec.2
    rw [h2, ← insertVars_append, List.take_append_drop]
termination_by vs => vs.length
decreasing_by
  simp only [List.length_drop, List.length_cons]
  omega

/-- A scan over a list of parents that can never hit the target SKU
inserts all their variations and misses. -/
theorem scanParentList_no_hit (s : String) :
    ∀ (ps : List Parent) (idx : Index),
      (∀ p ∈ ps, ∀ v ∈ p.variations, pyStrip (v.sku.getD "") ≠ "" → pyStrip (v.sku.getD "") ≠ s) →
      lookupIdx idx s = none →
      (scanParentList s idx ps).1 = none ∧
      (scanParentList s idx ps).2.1 = insertAllParents idx ps
  | [], idx, _, _ => ⟨rfl, rfl⟩
  | p :: ps, idx, hps, hidx => by
    have hhead := scanVarPages_no_hit p.id s p.variations idx (hps p (List.mem_cons_self _ _)) hidx
    rcases hsp : scanVarPages p.id s idx (chunksOf 100 p.variations) with ⟨res, idx', c⟩
    rw [hsp] at hhead
    have hres : res = none := hhead.1
    have hidx' : idx' = insertVars p.id idx p.variations := hhead.2
    have hlook' : lookupIdx idx' s = none := by
      rw [hidx']
      exact lookupIdx_insertVars_none p.id s p.variations idx (hps p (List.mem_cons_self _ _)) hidx
    have hrec := scanParentList_no_hit s ps idx'
      (fun q hq => hps q (List.mem_cons_of_mem _ hq)) hlook'
    rcases htr : scanParentList s idx' ps with ⟨res2, idx2, c2⟩
    rw [htr] at hrec
    subst hres
    simp only [scanParentList, hsp, htr]
    have h2 : idx2 = insertAllParents idx' ps := hrec.2
    refine ⟨hrec.1, ?_⟩
    show idx2 = insertAllParents idx (p :: ps)
    rw [h2, hidx', insertAllParents_cons]

/-- The outer page loop over parents that can never hit the target SKU
inserts everything and misses. -/
theorem scanOuter_no_hit (s : String) :
    ∀ (ps : List Parent) (idx : Index),
      (∀ p ∈ ps, ∀ v ∈ p.variations, pyStrip (v.sku.getD "") ≠ "" → pyStrip (v.sku.getD "") ≠ s) →
      lookupIdx idx s = none →
      (scanOuter s idx (chunksOf 50 ps)).1 = none ∧
      (scanOuter s idx (chunksOf 50 ps)).2.1 = insertAllParents idx ps
  | [], idx, _, _ => by
    rw [chunksOf_nil]
    exact ⟨rfl, rfl⟩
  | x :: xs, idx, hps, hidx => by
    rw [chunksOf_cons 50 (by decide)]
    have hsub : ∀ p ∈ (x :: xs).take 50, p ∈ x :: xs := fun p hp => List.take_subset _ _ hp
    have hhead := scanParentList_no_hit s ((x :: xs).take 50) idx
      (fun p hp => hps p (hsub p hp)) hidx
    rcases hsp : scanParentList s idx ((x :: xs).take 50) with ⟨res, idx', c⟩
    rw [hsp] at hhead
    have hres : res = none := hhead.1
    have hidx' : idx' = insertAllParents idx ((x :: xs).take 50) := hhead.2
    have hlook' : lookupIdx idx' s = none := by
      rw [hidx']
      exact lookupIdx_insertAllParents_none s _ idx (fun p hp => hps p (hsub p hp)) hidx
    have hrec := scanOuter_no_hit s ((x :: xs).drop 50) idx'
      (fun p hp => hps p (List.drop_subset _ _ hp)) hlook'
    rcases htr : scanOuter s idx' (chunksOf 50 ((x :: xs).drop 50)) with ⟨res2, idx2, c2⟩
    rw [htr] at hrec
    subst hres
    simp only [scanOuter, hsp, htr]
    have h2 : idx2 = insertAllParents idx' ((x :: xs).drop 50) := hrec.2
    refine ⟨hrec.1, ?_⟩
    show idx2 = insertAllParents idx (x :: xs)
    rw [h2, hidx', ← insertAllParents_append, List.take_append_drop]
termination_by ps => ps.length
decreasing_by
  simp only [List.length_drop, List.length_cons]
  omega

/-! Well-formedness of the index through scans. -/

/-- Inserting a good key keeps all keys good. -/
theorem goodKeys_insertIdx (k : String) (v : Nat × Nat) (hk : k ≠ "") (hks : pyStrip k = k) :
    ∀ i : Index, goodKeys i → goodKeys (insertIdx i k v)
  | [], _ => by
    intro kv hkv
    simp only [insertIdx, List.mem_singleton] at hkv
    subst hkv
    exact ⟨hk, hks⟩
  | (a, b) :: t, hg => by
    intro kv hkv
    by_cases hak : a = k
    · simp only [insertIdx, hak, if_true] at hkv
      rcases List.mem_cons.mp hkv with h | h
      · subst h
        exact ⟨hk, hks⟩
      · exact hg kv (List.mem_cons_of_mem _ h)
    · simp only [insertIdx, hak, if_false] at hkv
      rcases List.mem_cons.mp hkv with h | h
      · subst h
        exact hg (a, b) (List.mem_cons_self _ _)
      · exact goodKeys_insertIdx k v hk hks t
          (fun w hw => hg w (List.mem_cons_of_mem _ hw)) kv h

/-- Scanning a variation page inserts only good keys. -/
theorem goodKeys_insertVars (pid : Nat) :
    ∀ (vs : List Variation) (i : Index), goodKeys i → goodKeys (insertVars pid i vs)
  | [], _, hg => hg
  | v :: vs, i, hg => by
    rw [insertVars_cons]
    by_cases hk : pyStrip (v.sku.getD "") = ""
    · rw [if_pos hk]
      exact goodKeys_insertVars pid vs i hg
    · rw [if_neg hk]
      exact goodKeys_insertVars pid vs _
        (goodKeys_insertIdx _ _ hk (pyStrip_idem _) i hg)

/-- The inner page scan preserves key well-formedness. -/
theorem goodKeys_scanVarPages (pid : Nat) (s : String) :
    ∀ (pages : List (List Variation)) (i : Index), goodKeys i →
      goodKeys (scanVarPages pid s i pages).2.1
  | [], _, hg => hg
  | pg :: rest, i, hg => by
    have hg' : goodKeys (insertVars pid i pg) := goodKeys_insertVars pid pg i hg
    rcases hl : lookupIdx (insertVars pid i pg) s with _ | r
    · rcases htr : scanVarPages pid s (insertVars pid i pg) rest with ⟨res, idx2, c⟩
      have := goodKeys_scanVarPages pid s rest (insertVars pid i pg) hg'
      rw [htr] at this
      simp only [scanVarPages, hl, htr]
      exact this
    · simp only [scanVarPages, hl]
      exact hg'

/-- The per-parent scan preserves key well-formedness. -/
theorem goodKeys_scanParentList (s : String) :
    ∀ (ps : List Parent) (i : Index), goodKeys i →
      goodKeys (scanParentList s i ps).2.1
  | [], _, hg => hg
  | p :: ps, i, hg => by
    have hg' := goodKeys_scanVarPages p.id s (chunksOf 100 p.variations) i hg
    rcases hsp : scanVarPages p.id s i (chunksOf 100 p.variations) with ⟨res, idx', c⟩
    rw [hsp] at hg'
    cases res with
    | some r =>
      simp only [scanParentList, hsp]
      exact hg'
    | none =>
      rcases htr : scanParentList s idx' ps with ⟨res2, idx2, c2⟩
      have := goodKeys_scanParentList s ps idx' hg'
      rw [htr] at this
      simp only [scanParentList, hsp, htr]
      exact this

/-- The outer page scan preserves key well-formedness. -/
theorem goodKeys_scanOuter (s : String) :
    ∀ (pages : List (List Parent)) (i : Index), goodKeys i →
      goodKeys (scanOuter s i pages).2.1
  | [], _, hg => hg
  | pg :: rest, i, hg => by
    have hg' := goodKeys_scanParentList s pg i hg
    rcases hsp : scanParentList s i pg with ⟨res, idx', c⟩
    rw [hsp] at hg'
    cases res with
    | some r =>
      simp only [scanOuter, hsp]
      exact hg'
    | none =>
      rcases htr : scanOuter s idx' rest with ⟨res2, idx2, c2⟩
      have := goodKeys_scanOuter s rest idx' hg'
      rw [htr] at this
      simp only [scanOuter, hsp, htr]
      exact this

/-- A well-formed index has no entry at the empty key. -/
theorem lookupIdx_empty_of_goodKeys : ∀ i : Index, goodKeys i → lookupIdx i "" = none
  | [], _ => rfl
  | (a, b) :: t, hg => by
    have ha : a ≠ "" := (hg (a, b) (List.mem_cons_self _ _)).1
    simp only [lookupIdx, ha, if_false]
    exact lookupIdx_empty_of_goodKeys t (fun w hw => hg w (List.mem_cons_of_mem _ hw))

/-! Claim theorems about the resolver. -/

/-- C1, counterexample: the SKU "A" matches no product and no variation of
`cexCatalog`, and `resolve_sku` starting from the empty index does return
`NotFound` — but the call rebuilds the index, inserting the unrelated
variation SKU "B", so the index is *not* unchanged, refuting the claim as
stated. -/
theorem resolve_sku_index_unchanged_cex :
    cexCatalog.simpleBySku "A" = none ∧
    (∀ p ∈ cexCatalog.parents, ∀ v ∈ p.variations, pyStrip (v.sku.getD "") ≠ "A") ∧
    (resolve_sku cexCatalog [] "A").1 = none ∧
    (resolve_sku cexCatalog [] "A").2.1 = [("B", 1, 2)] ∧
    ¬ ((resolve_sku cexCatalog [] "A").2.1 = ([] : Index)) := by
  decide

/-- C1 (amended): for every SKU `s` that matches no product and no
variation in the catalog and is not a key of the variation index,
`resolve_sku` returns `NotFound`, and the index after the call equals the
index before the call extended with an entry for every catalog variation
whose trimmed SKU is non-empty (so the call leaves the index unchanged
only when all those entries were already present). -/
theorem resolve_sku_not_found_extends_index (cat : Catalog) (idx : Index) (s : String)
    (h1 : cat.simpleBySku s = none)
    (h2 : ∀ p ∈ cat.parents, ∀ v ∈ p.variations, pyStrip (v.sku.getD "") ≠ s)
    (h3 : lookupIdx idx s = none) :
    (resolve_sku cat idx s).1 = none ∧
    (resolve_sku cat idx s).2.1 = insertAllParents idx cat.parents := by
  have hsc := scanOuter_no_hit s cat.parents idx (fun p hp v hv _ => h2 p hp v hv) h3
  rcases hso : scanOuter s idx (chunksOf 50 cat.parents) with ⟨res, idx', c⟩
  rw [hso] at hsc
  have hres : res = none := hsc.1
  subst hres
  simp only [resolve_sku, find_simple_or_parent_by_sku, h1,
    find_variation_by_sku_global, h3, hso]
  exact ⟨trivial, hsc.2⟩

/-- C1, witness for the amended theorem at the counterexample's input. -/
theorem resolve_sku_not_found_extends_index_witness :
    (resolve_sku cexCatalog [] "A").1 = none ∧
    (resolve_sku cexCatalog [] "A").2.1 = insertAllParents [] cexCatalog.parents :=
  resolve_sku_not_found_extends_index cexCatalog [] "A" (by decide) (by decide) (by decide)

/-- C7: a SKU already present in the variation index is answered from the
cache: `find_variation_by_sku_global` returns the cached
`(parentId, variationId)` pair, leaves the index untouched, and performs
zero catalog page fetches (no pagination over variable products or
variations); `resolve_sku` then returns the cached variation after the
single exact-match product GET, provided no simple product carries the
SKU. -/
theorem resolve_cached_variation_no_scan (cat : Catalog) (idx : Index) (s : String) (par vid : Nat)
    (hcache : lookupIdx idx s = some (par, vid))
    (hprod : cat.simpleBySku s = none) :
    find_variation_by_sku_global cat idx s = (some (par, vid), idx, 0) ∧
    resolve_sku cat idx s = (some (Resolved.variation vid par), idx, 1) := by
  constructor
  · simp only [find_variation_by_sku_global, hcache]
  · simp only [resolve_sku, find_simple_or_parent_by_sku, hprod,
      find_variation_by_sku_global, hcache]

/-- C7, witness: with "B" cached in the index, the resolver answers from
the cache with zero scan fetches. -/
theorem resolve_cached_variation_no_scan_witness :
    find_variation_by_sku_global cexCatalog [("B", 1, 2)] "B" = (some (1, 2), [("B", 1, 2)], 0) ∧
    resolve_sku cexCatalog [("B", 1, 2)] "B" = (some (Resolved.variation 2 1), [("B", 1, 2)], 1) :=
  resolve_cached_variation_no_scan cexCatalog [("B", 1, 2)] "B" 1 2 (by decide) (by decide)

/-- C10: starting from an index whose keys are all non-empty trimmed
strings, any resolver call preserves that invariant — every key ever
inserted is a non-empty, whitespace-trimmed SKU (variations with a
missing, empty or all-whitespace SKU are skipped by the scan); hence the
empty SKU has no index entry after any call, and resolving the empty SKU
as a variation always fails. -/
theorem variation_index_keys_invariant (cat : Catalog) (idx : Index) (s : String)
    (hgood : goodKeys idx) :
    goodKeys (find_variation_by_sku_global cat idx s).2.1 ∧
    lookupIdx (find_variation_by_sku_global cat idx s).2.1 "" = none ∧
    (find_variation_by_sku_global cat idx "").1 = none := by
  have hmain : goodKeys (find_variation_by_sku_global cat idx s).2.1 := by
    unfold find_variation_by_sku_global
    rcases hl : lookupIdx idx s with _ | r
    · simp only [hl]
      exact goodKeys_scanOuter s (chunksOf 50 cat.parents) idx hgood
    · simp only [hl]
      exact hgood
  refine ⟨hmain, lookupIdx_empty_of_goodKeys _ hmain, ?_⟩
  have h0 : lookupIdx idx "" = none := lookupIdx_empty_of_goodKeys idx hgood
  have hsc := scanOuter_no_hit "" cat.parents idx (fun p _ v _ hne => hne) h0
  rcases hso : scanOuter "" idx (chunksOf 50 cat.parents) with ⟨res, idx', c⟩
  rw [hso] at hsc
  simp only [find_variation_by_sku_global, h0, hso]
  exact hsc.1

/-- C10, witness at a concrete well-formed index and catalog. -/
theorem variation_index_keys_invariant_witness :
    goodKeys (find_variation_by_sku_global cexCatalog [("B", 1, 2)] "Z").2.1 ∧
    lookupIdx (find_variation_by_sku_global cexCatalog [("B", 1, 2)] "Z").2.1 "" = none ∧
    (find_variation_by_sku_global cexCatalog [("B", 1, 2)] "").1 = none :=
  variation_index_keys_invariant cexCatalog [("B", 1, 2)] "Z" (by unfold goodKeys; decide)

/-! Claim theorems about the payload builders. -/

/-- C9: for every id (and any price arguments), `build_update_item_for_product`
with quantity 5 yields `manage_stock = true`, `stock_quantity = 5` and
`stock_status = "instock"`; with quantity 0 it yields
`stock_status = "outofstock"`; and with quantity −3 the value is clamped,
so the payload carries `stock_quantity = 0`. -/
theorem build_product_stock_fields (pid : Nat) (rp sp : Option String) :
    (build_update_item_for_product pid (some 5) rp sp).manage_stock = some true ∧
    (build_update_item_for_product pid (some 5) rp sp).stock_quantity = some 5 ∧
    (build_update_item_for_product pid (some 5) rp sp).stock_status = some "instock" ∧
    (build_update_item_for_product pid (some 0) rp sp).stock_status = some "outofstock" ∧
    (build_update_item_for_product pid (some (-3)) rp sp).stock_quantity = some 0 := by
  rcases hr : clean rp with _ | r <;> rcases hs : clean sp with _ | s <;>
    simp [build_update_item_for_product, hr, hs]

/-- C5: in both payload builders, whenever the regular price is present
(non-empty after trimming) and the sale price is absent, the payload sets
`sale_price` to the empty string; and when both price inputs are absent,
no price key is emitted at all. -/
theorem build_price_key_rules :
    (∀ (id : Nat) (qty : Option Int) (rp sp : Option String),
       (clean rp).isSome = true → clean sp = none →
       (build_update_item_for_product id qty rp sp).sale_price = some "" ∧
       (build_update_item_for_variation id qty rp sp).sale_price = some "") ∧
    (∀ (id : Nat) (qty : Option Int) (rp sp : Option String),
       clean rp = none → clean sp = none →
       (build_update_item_for_product id qty rp sp).regular_price = none ∧
       (build_update_item_for_product id qty rp sp).sale_price = none ∧
       (build_update_item_for_variation id qty rp sp).regular_price = none ∧
       (build_update_item_for_variation id qty rp sp).sale_price = none) := by
  constructor
  · intro id qty rp sp hrp hsp
    rcases Option.isSome_iff_exists.mp hrp with ⟨r, hr⟩
    rcases qty with _ | q <;>
      simp [build_update_item_for_product, build_update_item_for_variation, hr, hsp]
  · intro id qty rp sp hrp hsp
    rcases qty with _ | q <;>
      simp [build_update_item_for_product, build_update_item_for_variation, hrp, hsp]

/-- C5, witness: a present regular price with absent sale price clears the
sale price; absent prices emit no price keys. -/
theorem build_price_key_rules_witness :
    ((clean (some " 10 ")).isSome = true ∧ clean none = none ∧
      (build_update_item_for_product 1 (some 5) (some " 10 ") none).sale_price = some "" ∧
      (build_update_item_for_variation 1 (some 5) (some " 10 ") none).sale_price = some "") ∧
    ((build_update_item_for_product 2 none none (some "  ")).regular_price = none ∧
      (build_update_item_for_product 2 none none (some "  ")).sale_price = none ∧
      (build_update_item_for_variation 2 none none (some "  ")).regular_price = none ∧
      (build_update_item_for_variation 2 none none (some "  ")).sale_price = none) := by
  constructor
  · refine ⟨by decide, rfl, ?_, ?_⟩
    · exact (build_price_key_rules.1 1 (some 5) (some " 10 ") none (by decide) (by decide)).1
    · exact (build_price_key_rules.1 1 (some 5) (some " 10 ") none (by decide) (by decide)).2
  · exact build_price_key_rules.2 2 none none (some "  ") (by decide) (by decide)

/-! Claim theorem about the preview's price validation. -/

/-- C6: in the preview's price-validation stage, every row whose two
price cells are present and whose sale price parses strictly above its
regular price is marked invalid and excluded from the kept rows, and the
reported validation-error count equals the number of invalid rows (so
each such row contributes exactly 1); a row whose prices both parse with
the sale price not exceeding the regular price is kept. -/
theorem preview_price_validation :
    (∀ (parseF : String → Option ℚ) (rows : List Row) (r : Row),
       bothPresentB r = true → parsesGTB parseF r = true →
       invalid_price parseF r = true ∧ r ∉ (previewValidate parseF rows).1) ∧
    (∀ (parseF : String → Option ℚ) (rows : List Row) (r : Row),
       r ∈ strippedRows rows → bothPresentB r = true → parsesLEB parseF r = true →
       r ∈ (previewValidate parseF rows).1) ∧
    (∀ (parseF : String → Option ℚ) (rows : List Row),
       (previewValidate parseF rows).2 = (strippedRows rows).countP (invalid_price parseF)) := by
  refine ⟨?_, ?_, fun _ _ => rfl⟩
  · intro parseF rows r hbp hgt
    have hinv : invalid_price parseF r = true := by
      rcases hrp : r.regular_price with _ | a <;> rcases hsp : r.sale_price with _ | b <;>
        simp only [bothPresentB, hrp, hsp, Bool.false_eq_true] at hbp
      simp only [parsesGTB, hrp, hsp, Option.getD_some] at hgt
      simp only [invalid_price, hrp, hsp, if_pos hbp]
      rcases hpb : parseF b with _ | sv <;> rcases hpa : parseF a with _ | rv <;>
        simp [hpb, hpa] at hgt ⊢
      exact hgt
    refine ⟨hinv, ?_⟩
    intro hmem
    have := (List.mem_filter.mp hmem).2
    rw [hinv] at this
    simp at this
  · intro parseF rows r hmem hbp hle
    have hinv : invalid_price parseF r = false := by
      rcases hrp : r.regular_price with _ | a <;> rcases hsp : r.sale_price with _ | b <;>
        simp only [bothPresentB, hrp, hsp, Bool.false_eq_true] at hbp
      simp only [parsesLEB, hrp, hsp, Option.getD_some] at hle
      simp only [invalid_price, hrp, hsp, if_pos hbp]
      rcases hpb : parseF b with _ | sv <;> rcases hpa : parseF a with _ | rv <;>
        simp [hpb, hpa] at hle ⊢
      exact hle
    exact List.mem_filter.mpr ⟨hmem, by rw [hinv]; rfl⟩

/-- C6, witness: on the spec's example rows, the (10, 15) row is excluded
with the reported count 1, and the (10, 8) row is kept. -/
theorem preview_price_validation_witness :
    (invalid_price parseF0 ⟨"a", 0, some "10", some "15"⟩ = true ∧
      (⟨"a", 0, some "10", some "15"⟩ : Row) ∉
        (previewValidate parseF0 [⟨"a", 0, some "10", some "15"⟩, ⟨"b", 0, some "10", some "8"⟩]).1) ∧
    (⟨"b", 0, some "10", some "8"⟩ : Row) ∈
      (previewValidate parseF0 [⟨"a", 0, some "10", some "15"⟩, ⟨"b", 0, some "10", some "8"⟩]).1 ∧
    (previewValidate parseF0 [⟨"a", 0, some "10", some "15"⟩, ⟨"b", 0, some "10", some "8"⟩]).2 =
      (strippedRows [⟨"a", 0, some "10", some "15"⟩, ⟨"b", 0, some "10", some "8"⟩]).countP
        (invalid_price parseF0) := by
  refine ⟨?_, ?_, ?_⟩
  · exact preview_price_validation.1 parseF0 _ _ (by decide) (by decide)
  · exact preview_price_validation.2.1 parseF0 _ _ (by decide) (by decide) (by decide)
  · exact preview_price_validation.2.2 parseF0 _

/-! Lemmas about the row loop of the reconcile endpoint. -/

/-- The loop on one list step: `foldl` unfolding. -/
theorem applyRows_cons (E : Env σ) (opts : Options) (st : LoopState σ) (r : Row) (l : List Row) :
    applyRows E opts st (r :: l) = applyRows E opts (processRow E opts st r) l := rfl

/-- The loop over an appended list. -/
theorem applyRows_append (E : Env σ) (opts : Options) (st : LoopState σ) (l₁ l₂ : List Row) :
    applyRows E opts st (l₁ ++ l₂) = applyRows E opts (applyRows E opts st l₁) l₂ := by
  simp only [applyRows, List.foldl_append]

/-- One loop iteration only ever appends to the log and the error list. -/
theorem processRow_extends (E : Env σ) (opts : Options) (st : LoopState σ) (r : Row) :
    ∃ tl te, (processRow E opts st r).log_rows = st.log_rows ++ tl ∧
             (processRow E opts st r).errors = st.errors ++ te := by
  unfold processRow
  by_cases hs : pyStrip r.sku = ""
  · rw [if_pos hs]
    exact ⟨[], [], by simp, by simp⟩
  · rw [if_neg hs]
    rcases hres : E.resolveSku st.s (pyStrip r.sku) with ⟨res, s'⟩
    rcases res with e | o
    · exact ⟨_, _, rfl, rfl⟩
    · rcases o with _ | rv
      · exact ⟨_, [], rfl, by simp⟩
      · rcases rv with pid | ⟨vid, par⟩
        · cases hd : opts.dry_run
          · simp only [hd]
            exact ⟨[], [], by simp, by simp⟩
          · simp only [hd]
            exact ⟨_, [], rfl, by simp⟩
        · cases hd : opts.dry_run
          · simp only [hd]
            exact ⟨[], [], by simp, by simp⟩
          · simp only [hd]
            exact ⟨_, [], rfl, by simp⟩

/-- The whole loop only ever appends to the log and the error list. -/
theorem applyRows_extends (E : Env σ) (opts : Options) :
    ∀ (l : List Row) (st : LoopState σ),
      ∃ tl te, (applyRows E opts st l).log_rows = st.log_rows ++ tl ∧
               (applyRows E opts st l).errors = st.errors ++ te
  | [], st => ⟨[], [], by simp [applyRows], by simp [applyRows]⟩
  | r :: l, st => by
    obtain ⟨tl, te, h1, h2⟩ := applyRows_extends E opts l (processRow E opts st r)
    obtain ⟨ul, ue, g1, g2⟩ := processRow_extends E opts st r
    rw [applyRows_cons]
    exact ⟨ul ++ tl, ue ++ te, by rw [h1, g1, List.append_assoc],
      by rw [h2, g2, List.append_assoc]⟩

/-- The run's final error list extends the loop's error list (the flush
stage can only append batch-level error strings). -/
theorem applyRun_errors_extends (E : Env σ) (opts : Options) (s₀ : σ) (rows : List Row) :
    ∃ t, (applyRun E opts s₀ rows).1.errors = (applyRows E opts (initState s₀) rows).errors ++ t := by
  unfold applyRun
  cases hd : opts.dry_run
  · simp only [Bool.false_eq_true, if_false]
    rcases hfp : flushProducts E (applyRows E opts (initState s₀) rows).s
        (chunksOf 100 (applyRows E opts (initState s₀) rows).product_payload) with ⟨s1, u1, e1, c1⟩
    rcases hfv : flushVariationBuckets E s1
        (applyRows E opts (initState s₀) rows).variations_by_parent with ⟨s2, u2, e2, c2⟩
    refine ⟨e1 ++ e2, ?_⟩
    simp [hfp, hfv]
  · simp only [if_true]
    exact ⟨[], by simp⟩

/-- C2: per-row isolation of raised exceptions.  If resolving the row
`row` (placed anywhere in the input) raises `e`, then the run equals the
run that handles that row by appending exactly one error string and one
`error` log record keyed by the row's SKU and then continues with all the
remaining rows; the raised error is recorded in the final audit log, and
the run still completes with a summary whose error count registers the
failure — for every oracle, i.e. even if every other row fails too. -/
theorem apply_row_error_isolated {σ : Type} (E : Env σ) (opts : Options) (s₀ : σ)
    (l₁ l₂ : List Row) (row : Row) (e : String)
    (hsku : pyStrip row.sku ≠ "")
    (hthrow : (E.resolveSku (applyRows E opts (initState s₀) l₁).s (pyStrip row.sku)).1 = Except.error e) :
    applyRows E opts (initState s₀) (l₁ ++ row :: l₂) =
      applyRows E opts (errorStep E opts (applyRows E opts (initState s₀) l₁) row e) l₂ ∧
    errorRecordOf opts row e ∈ (applyRows E opts (initState s₀) (l₁ ++ row :: l₂)).log_rows ∧
    1 ≤ (applySummary E opts s₀ (l₁ ++ row :: l₂)).errors_count := by
  have hpr : processRow E opts (applyRows E opts (initState s₀) l₁) row =
      errorStep E opts (applyRows E opts (initState s₀) l₁) row e := by
    unfold processRow errorStep errorRecordOf
    rw [if_neg hsku]
    rcases hres : E.resolveSku (applyRows E opts (initState s₀) l₁).s (pyStrip row.sku) with ⟨res, s'⟩
    rw [hres] at hthrow
    have hre : res = Except.error e := hthrow
    subst hre
    simp [hres]
  have hfold : applyRows E opts (initState s₀) (l₁ ++ row :: l₂) =
      applyRows E opts (errorStep E opts (applyRows E opts (initState s₀) l₁) row e) l₂ := by
    rw [applyRows_append, applyRows_cons, hpr]
  refine ⟨hfold, ?_, ?_⟩
  · obtain ⟨tl, te, h1, _⟩ :=
      applyRows_extends E opts l₂ (errorStep E opts (applyRows E opts (initState s₀) l₁) row e)
    rw [hfold, h1]
    simp [errorStep]
  · obtain ⟨t, ht⟩ := applyRun_errors_extends E opts s₀ (l₁ ++ row :: l₂)
    obtain ⟨tl, te, _, h2⟩ :=
      applyRows_extends E opts l₂ (errorStep E opts (applyRows E opts (initState s₀) l₁) row e)
    rw [hfold] at ht
    rw [h2] at ht
    simp only [applySummary, mkSummary, ht, errorStep]
    simp [List.length_append]
    omega

/-- C2, witness: a run whose middle row raises is isolated — the
surrounding rows are still processed and the summary registers the
error. -/
theorem apply_row_error_isolated_witness :
    pyStrip (Row.mk "bad" 0 none none).sku ≠ "" ∧
    (applyRows envThrowBad optsDry (initState ())
        [⟨"x", 0, none, none⟩, ⟨"bad", 0, none, none⟩, ⟨"y", 0, none, none⟩] =
      applyRows envThrowBad optsDry
        (errorStep envThrowBad optsDry
          (applyRows envThrowBad optsDry (initState ()) [⟨"x", 0, none, none⟩])
          ⟨"bad", 0, none, none⟩ "boom") [⟨"y", 0, none, none⟩] ∧
     errorRecordOf optsDry ⟨"bad", 0, none, none⟩ "boom" ∈
       (applyRows envThrowBad optsDry (initState ())
         [⟨"x", 0, none, none⟩, ⟨"bad", 0, none, none⟩, ⟨"y", 0, none, none⟩]).log_rows ∧
     1 ≤ (applySummary envThrowBad optsDry ()
       [⟨"x", 0, none, none⟩, ⟨"bad", 0, none, none⟩, ⟨"y", 0, none, none⟩]).errors_count) :=
  ⟨by decide,
   apply_row_error_isolated envThrowBad optsDry () [⟨"x", 0, none, none⟩] [⟨"y", 0, none, none⟩]
     ⟨"bad", 0, none, none⟩ "boom" (by decide) (by rfl)⟩

/-- Action counts split over appends. -/
theorem countActions_append (a : String) (l₁ l₂ : List LogRecord) :
    countActions a (l₁ ++ l₂) = countActions a l₁ + countActions a l₂ := by
  simp [countActions, List.filter_append]

/-- Action count of a single record. -/
theorem countActions_one (a : String) (lr : LogRecord) :
    countActions a [lr] = if lr.action == a then 1 else 0 := by
  simp only [countActions, List.filter]
  cases h : lr.action == a <;> simp [h]

/-- In dry-run mode with a stateless, non-raising oracle, the loop emits
exactly one `would_update` record per row whose stripped SKU is non-empty
and resolves. -/
theorem applyRows_dry_would (E : Env σ) (opts : Options) (f : String → Option Resolved)
    (hdry : opts.dry_run = true)
    (hres : ∀ s k, E.resolveSku s k = (Except.ok (f k), s)) :
    ∀ (rows : List Row) (st : LoopState σ),
      countActions "would_update" (applyRows E opts st rows).log_rows =
        countActions "would_update" st.log_rows +
          rows.countP (fun r => pyStrip r.sku != "" && (f (pyStrip r.sku)).isSome)
  | [], st => by simp [applyRows]
  | r :: rows, st => by
    rw [applyRows_cons, applyRows_dry_would E opts f hdry hres rows (processRow E opts st r),
      List.countP_cons]
    have hstep : countActions "would_update" (processRow E opts st r).log_rows =
        countActions "would_update" st.log_rows +
          (if (pyStrip r.sku != "" && (f (pyStrip r.sku)).isSome) = true then 1 else 0) := by
      unfold processRow
      by_cases hs : pyStrip r.sku = ""
      · rw [if_pos hs]
        simp [hs]
      · rw [if_neg hs]
        rw [hres st.s (pyStrip r.sku)]
        rcases hf : f (pyStrip r.sku) with _ | rv
        · simp [countActions_append, countActions_one, hs]
        · rcases rv with pid | ⟨vid, par⟩ <;>
            simp [hdry, countActions_append, countActions_one, hs]
    rw [hstep]
    omega

/-- In dry-run mode with a stateless, non-raising oracle, the loop emits
exactly one `not_found` record per row whose stripped SKU is non-empty
and does not resolve. -/
theorem applyRows_dry_nf (E : Env σ) (opts : Options) (f : String → Option Resolved)
    (hdry : opts.dry_run = true)
    (hres : ∀ s k, E.resolveSku s k = (Except.ok (f k), s)) :
    ∀ (rows : List Row) (st : LoopState σ),
      countActions "not_found" (applyRows E opts st rows).log_rows =
        countActions "not_found" st.log_rows +
          rows.countP (fun r => pyStrip r.sku != "" && (f (pyStrip r.sku)).isNone)
  | [], st => by simp [applyRows]
  | r :: rows, st => by
    rw [applyRows_cons, applyRows_dry_nf E opts f hdry hres rows (processRow E opts st r),
      List.countP_cons]
    have hstep : countActions "not_found" (processRow E opts st r).log_rows =
        countActions "not_found" st.log_rows +
          (if (pyStrip r.sku != "" && (f (pyStrip r.sku)).isNone) = true then 1 else 0) := by
      unfold processRow
      by_cases hs : pyStrip r.sku = ""
      · rw [if_pos hs]
        simp [hs]
      · rw [if_neg hs]
        rw [hres st.s (pyStrip r.sku)]
        rcases hf : f (pyStrip r.sku) with _ | rv
        · simp [countActions_append, countActions_one, hs]
        · rcases rv with pid | ⟨vid, par⟩ <;>
            simp [hdry, countActions_append, countActions_one, hs]
    rw [hstep]
    omega

/-- C4: a dry-run reconcile dispatches no batch write at all (the
recorded network-write list is empty — and the model records every PUT
the endpoint can issue), and, for a stateless non-raising resolution
oracle `f`, the audit log carries exactly one `would_update` record per
row whose stripped SKU is non-empty and resolves, and exactly one
`not_found` record per row whose stripped SKU is non-empty and does not
resolve. -/
theorem apply_dry_run_no_writes_log_counts (E : Env σ) (opts : Options) (s₀ : σ)
    (rows : List Row) (f : String → Option Resolved)
    (hdry : opts.dry_run = true)
    (hres : ∀ s k, E.resolveSku s k = (Except.ok (f k), s)) :
    (applyRun E opts s₀ rows).1.calls = [] ∧
    countActions "would_update" (applyRun E opts s₀ rows).1.log_rows =
      rows.countP (fun r => pyStrip r.sku != "" && (f (pyStrip r.sku)).isSome) ∧
    countActions "not_found" (applyRun E opts s₀ rows).1.log_rows =
      rows.countP (fun r => pyStrip r.sku != "" && (f (pyStrip r.sku)).isNone) := by
  have hrun : (applyRun E opts s₀ rows).1 =
      { updated_total := 0
        not_found := (applyRows E opts (initState s₀) rows).not_found
        errors := (applyRows E opts (initState s₀) rows).errors
        log_rows := (applyRows E opts (initState s₀) rows).log_rows
        calls := [] } := by
    unfold applyRun
    simp [hdry]
  rw [hrun]
  refine ⟨rfl, ?_, ?_⟩
  · rw [applyRows_dry_would E opts f hdry hres rows (initState s₀)]
    simp [initState, countActions]
  · rw [applyRows_dry_nf E opts f hdry hres rows (initState s₀)]
    simp [initState, countActions]

/-- C4, witness: one resolvable row, one unresolvable row and one
empty-SKU row, in dry-run mode: no write is dispatched, one
`would_update` and one `not_found` record. -/
theorem apply_dry_run_no_writes_log_counts_witness :
    (applyRun envTableP optsDry ()
        [⟨"p", 5, none, none⟩, ⟨"zzz", 1, none, none⟩, ⟨"  ", 1, none, none⟩]).1.calls = [] ∧
    countActions "would_update" (applyRun envTableP optsDry ()
        [⟨"p", 5, none, none⟩, ⟨"zzz", 1, none, none⟩, ⟨"  ", 1, none, none⟩]).1.log_rows =
      ([⟨"p", 5, none, none⟩, ⟨"zzz", 1, none, none⟩, ⟨"  ", 1, none, none⟩] : List Row).countP
        (fun r => pyStrip r.sku != "" && (tableP (pyStrip r.sku)).isSome) ∧
    countActions "not_found" (applyRun envTableP optsDry ()
        [⟨"p", 5, none, none⟩, ⟨"zzz", 1, none, none⟩, ⟨"  ", 1, none, none⟩]).1.log_rows =
      ([⟨"p", 5, none, none⟩, ⟨"zzz", 1, none, none⟩, ⟨"  ", 1, none, none⟩] : List Row).countP
        (fun r => pyStrip r.sku != "" && (tableP (pyStrip r.sku)).isNone) :=
  apply_dry_run_no_writes_log_counts envTableP optsDry ()
    [⟨"p", 5, none, none⟩, ⟨"zzz", 1, none, none⟩, ⟨"  ", 1, none, none⟩] tableP rfl
    (fun _ _ => rfl)

/-- Action count of a cons. -/
theorem countActions_cons (a : String) (lr : LogRecord) (l : List LogRecord) :
    countActions a (lr :: l) = (if lr.action == a then 1 else 0) + countActions a l := by
  simp only [countActions, List.filter]
  cases h : lr.action == a <;> simp [h, Nat.add_comm]

/-- The row loop itself never emits an `updated` record. -/
theorem applyRows_no_updated (E : Env σ) (opts : Options) :
    ∀ (rows : List Row) (st : LoopState σ),
      countActions "updated" (applyRows E opts st rows).log_rows =
        countActions "updated" st.log_rows
  | [], st => by simp [applyRows]
  | r :: rows, st => by
    rw [applyRows_cons, applyRows_no_updated E opts rows (processRow E opts st r)]
    unfold processRow
    by_cases hs : pyStrip r.sku = ""
    · rw [if_pos hs]
    · rw [if_neg hs]
      rcases hres : E.resolveSku st.s (pyStrip r.sku) with ⟨res, s'⟩
      rcases res with e | o
      · simp [countActions_append, countActions_one]
      · rcases o with _ | rv
        · simp [countActions_append, countActions_one]
        · rcases rv with pid | ⟨vid, par⟩ <;> cases hd : opts.dry_run <;>
            simp [hd, countActions_append, countActions_one]

/-- A mapped batch of records all carrying the `updated` action counts as
its length. -/
theorem countActions_updated_map {α : Type} (g : α → LogRecord)
    (hg : ∀ x, (g x).action = "updated") :
    ∀ l : List α, countActions "updated" (l.map g) = l.length
  | [] => rfl
  | x :: l => by
    rw [List.map_cons, countActions_cons, countActions_updated_map g hg l]
    simp [hg x]
    omega

/-- The post-flush `updated` records number exactly the accumulated
payload items. -/
theorem countActions_updatedLogs (st : LoopState σ) :
    countActions "updated" (updatedLogs st) =
      st.product_payload.length + sumSizes st.variations_by_parent := by
  unfold updatedLogs
  rw [countActions_append]
  have h1 : countActions "updated" (st.product_payload.map (fun p =>
      (⟨"", "updated", "מוצר עודכן", "product", none, some p.id,
        p.stock_quantity, p.regular_price, p.sale_price⟩ : LogRecord))) =
      st.product_payload.length :=
    countActions_updated_map _ (fun _ => rfl) _
  rw [h1]
  have h2 : ∀ bkts : List (Nat × List UpdateItem),
      countActions "updated" ((bkts.map (fun pv =>
        pv.2.map (fun v =>
          (⟨"", "updated", "וריאציה עודכנה", "variation", some pv.1, some v.id,
            v.stock_quantity, v.regular_price, v.sale_price⟩ : LogRecord)))).flatten) =
        sumSizes bkts := by
    intro bkts
    induction bkts with
    | nil => rfl
    | cons b t ih =>
      rw [List.map_cons, List.flatten_cons, countActions_append, ih,
        countActions_updated_map _ (fun _ => rfl)]
      simp [sumSizes]
  exact congrArg (Nat.add st.product_payload.length) (h2 st.variations_by_parent)

/-- The audit-log shape of a non-dry-run reconcile: the loop's records
followed by the unconditional `updated` block. -/
theorem applyRun_wet_log (E : Env σ) (opts : Options) (s₀ : σ) (rows : List Row)
    (hwet : opts.dry_run = false) :
    (applyRun E opts s₀ rows).1.log_rows =
      (applyRows E opts (initState s₀) rows).log_rows ++
        updatedLogs (applyRows E opts (initState s₀) rows) := by
  unfold applyRun
  simp only [hwet, Bool.false_eq_true, if_false]

/-- C3, counterexample: one resolvable product row, non-dry-run, with a
batch endpoint that fails (HTTP 500).  The chunk's submission fails — the
batch error is recorded and the updated total stays 0 — yet the audit log
still carries one `updated` record for the item, refuting 'only for
successfully-submitted items'. -/
theorem apply_failed_chunk_updated_cex :
    (applyRun envBatchFail optsWet () [⟨"a", 1, none, none⟩]).1.errors = ["500: boom"] ∧
    (applyRun envBatchFail optsWet () [⟨"a", 1, none, none⟩]).1.updated_total = 0 ∧
    countActions "updated" (applyRun envBatchFail optsWet () [⟨"a", 1, none, none⟩]).1.log_rows = 1 := by
  decide

/-- C3 (amended): in every non-dry-run reconcile, exactly one `updated`
audit-log record is emitted per item accumulated in the payload buckets —
i.e. per submitted item — regardless of whether the item's batch call
succeeded; items of failed chunks receive `updated` records too (success
is assumed from submission, not verified). -/
theorem apply_updated_records_count (E : Env σ) (opts : Options) (s₀ : σ) (rows : List Row)
    (hwet : opts.dry_run = false) :
    countActions "updated" (applyRun E opts s₀ rows).1.log_rows =
      (applyRows E opts (initState s₀) rows).product_payload.length +
        sumSizes (applyRows E opts (initState s₀) rows).variations_by_parent := by
  rw [applyRun_wet_log E opts s₀ rows hwet, countActions_append,
    applyRows_no_updated E opts rows (initState s₀), countActions_updatedLogs]
  simp [initState, countActions]

/-- C3, witness for the amended theorem at the counterexample's input. -/
theorem apply_updated_records_count_witness :
    countActions "updated" (applyRun envBatchFail optsWet () [⟨"a", 1, none, none⟩]).1.log_rows =
      (applyRows envBatchFail optsWet (initState ()) [⟨"a", 1, none, none⟩]).product_payload.length +
        sumSizes (applyRows envBatchFail optsWet (initState ()) [⟨"a", 1, none, none⟩]).variations_by_parent :=
  apply_updated_records_count envBatchFail optsWet () [⟨"a", 1, none, none⟩] rfl

/-! Lemmas about the flush stage's dispatched calls. -/

/-- The product flush dispatches exactly one batch call per chunk, in
order. -/
theorem flushProducts_calls (E : Env σ) :
    ∀ (chunks : List (List UpdateItem)) (s : σ),
      (flushProducts E s chunks).2.2.2 = chunks.map NetCall.products
  | [], _ => rfl
  | c :: rest, s => by
    rcases hb : E.batchProducts s c with ⟨res, s'⟩
    have htail := flushProducts_calls E rest s'
    rcases hf : flushProducts E s' rest with ⟨s'', u, es, cs⟩
    rw [hf] at htail
    have hcs : cs = rest.map NetCall.products := htail
    simp only [flushProducts, hb, hf, List.map_cons]
    rw [hcs]

/-- The per-parent variation flush dispatches exactly one batch call per
chunk, in order. -/
theorem flushVariationChunks_calls (E : Env σ) (pid : Nat) :
    ∀ (chunks : List (List UpdateItem)) (s : σ),
      (flushVariationChunks E pid s chunks).2.2.2 = chunks.map (NetCall.variations pid)
  | [], _ => rfl
  | c :: rest, s => by
    rcases hb : E.batchVariations s pid c with ⟨res, s'⟩
    have htail := flushVariationChunks_calls E pid rest s'
    rcases hf : flushVariationChunks E pid s' rest with ⟨s'', u, es, cs⟩
    rw [hf] at htail
    have hcs : cs = rest.map (NetCall.variations pid) := htail
    simp only [flushVariationChunks, hb, hf, List.map_cons]
    rw [hcs]

/-- Every call the variation-bucket flush dispatches is a variation batch
whose payload is one ≤100-sized chunk. -/
theorem flushVariationBuckets_calls_shape (E : Env σ) :
    ∀ (bkts : List (Nat × List UpdateItem)) (s : σ),
      ∀ c ∈ (flushVariationBuckets E s bkts).2.2.2,
        ∃ pid payload, c = NetCall.variations pid payload ∧ payload.length ≤ 100
  | [], s, c, hc => by simp [flushVariationBuckets] at hc
  | (pid, vlist) :: rest, s, c, hc => by
    have hch := flushVariationChunks_calls E pid (chunksOf 100 vlist) s
    rcases hf1 : flushVariationChunks E pid s (chunksOf 100 vlist) with ⟨s', u1, e1, c1⟩
    rw [hf1] at hch
    have hc1 : c1 = (chunksOf 100 vlist).map (NetCall.variations pid) := hch
    rcases hf2 : flushVariationBuckets E s' rest with ⟨s'', u2, e2, c2⟩
    have hmem : c ∈ c1 ++ c2 := by
      simpa only [flushVariationBuckets, hf1, hf2] using hc
    rcases List.mem_append.mp hmem with h | h
    · rw [hc1] at h
      rcases List.mem_map.mp h with ⟨pl, hpl, hplc⟩
      exact ⟨pid, pl, hplc.symm, chunksOf_length_le 100 (by decide) vlist pl hpl⟩
    · have := flushVariationBuckets_calls_shape E rest s' c
      rw [hf2] at this
      exact this h

/-- The calls dispatched by a non-dry-run reconcile: the product chunks
first, then the variation-bucket calls. -/
theorem applyRun_wet_calls (E : Env σ) (opts : Options) (s₀ : σ) (rows : List Row)
    (hwet : opts.dry_run = false) :
    (applyRun E opts s₀ rows).1.calls =
      (chunksOf 100 (applyRows E opts (initState s₀) rows).product_payload).map NetCall.products ++
      (flushVariationBuckets E
        (flushProducts E (applyRows E opts (initState s₀) rows).s
          (chunksOf 100 (applyRows E opts (initState s₀) rows).product_payload)).1
        (applyRows E opts (initState s₀) rows).variations_by_parent).2.2.2 := by
  unfold applyRun
  simp only [hwet, Bool.false_eq_true, if_false]
  rw [← flushProducts_calls E
    (chunksOf 100 (applyRows E opts (initState s₀) rows).product_payload)
    (applyRows E opts (initState s₀) rows).s]

/-- C8: in every non-dry-run reconcile, (a) when the resolved product
bucket holds 250 items, exactly 3 batch product-update calls are
dispatched, with chunk sizes 100, 100, 50 in that order; and (b) every
dispatched chunk — product or variation — has size at most 100. -/
theorem apply_batch_chunking :
    (∀ (σ : Type) (E : Env σ) (opts : Options) (s₀ : σ) (rows : List Row),
       opts.dry_run = false →
       (applyRows E opts (initState s₀) rows).product_payload.length = 250 →
       productCallSizes (applyRun E opts s₀ rows).1.calls = [100, 100, 50]) ∧
    (∀ (σ : Type) (E : Env σ) (opts : Options) (s₀ : σ) (rows : List Row),
       opts.dry_run = false →
       ∀ c ∈ (applyRun E opts s₀ rows).1.calls, callSize c ≤ 100) := by
  have hsizes : ∀ (l : List UpdateItem), l.length = 250 →
      (chunksOf 100 l).map List.length = [100, 100, 50] := by
    intro l h
    have hstep : ∀ (m : List UpdateItem), m ≠ [] →
        (chunksOf 100 m).map List.length =
          min 100 m.length :: (chunksOf 100 (m.drop 100)).map List.length := by
      intro m hm
      obtain ⟨x, xs, hx⟩ := List.exists_cons_of_ne_nil hm
      subst hx
      rw [chunksOf_cons 100 (by decide)]
      simp [List.length_take]
      omega
    have h1 : l ≠ [] := by intro hn; rw [hn] at h; simp at h
    rw [hstep l h1, h]
    have hd1 : (l.drop 100).length = 150 := by simp [List.length_drop, h]
    have h2 : l.drop 100 ≠ [] := by intro hn; rw [hn] at hd1; simp at hd1
    rw [hstep _ h2, hd1]
    have hd2 : ((l.drop 100).drop 100).length = 50 := by simp [List.length_drop, h]
    have h3 : (l.drop 100).drop 100 ≠ [] := by intro hn; rw [hn] at hd2; simp at hd2
    rw [hstep _ h3, hd2]
    have hd3 : (((l.drop 100).drop 100).drop 100).length = 0 := by
      simp [List.length_drop, h]
    rw [List.eq_nil_of_length_eq_zero hd3, chunksOf_nil]
    decide
  have hmapP : ∀ chunks : List (List UpdateItem),
      productCallSizes (chunks.map NetCall.products) = chunks.map List.length := by
    intro chunks
    induction chunks with
    | nil => rfl
    | cons c rest ih =>
      simp only [List.map_cons, productCallSizes, List.filterMap_cons]
      simp only [productCallSizes] at ih
      rw [ih]
  constructor
  · intro σ E opts s₀ rows hwet h250
    rw [applyRun_wet_calls E opts s₀ rows hwet]
    have happ : ∀ (a b : List NetCall),
        productCallSizes (a ++ b) = productCallSizes a ++ productCallSizes b := by
      intro a b
      simp [productCallSizes, List.filterMap_append]
    rw [happ, hmapP]
    have hb : productCallSizes
        (flushVariationBuckets E
          (flushProducts E (applyRows E opts (initState s₀) rows).s
            (chunksOf 100 (applyRows E opts (initState s₀) rows).product_payload)).1
          (applyRows E opts (initState s₀) rows).variations_by_parent).2.2.2 = [] := by
      unfold productCallSizes
      rw [List.filterMap_eq_nil_iff]
      intro c hc
      obtain ⟨pid, pl, hcv, _⟩ := flushVariationBuckets_calls_shape E
        (applyRows E opts (initState s₀) rows).variations_by_parent _ c hc
      rw [hcv]
    rw [hb, List.append_nil]
    exact hsizes _ h250
  · intro σ E opts s₀ rows hwet c hc
    rw [applyRun_wet_calls E opts s₀ rows hwet] at hc
    rcases List.mem_append.mp hc with h | h
    · rcases List.mem_map.mp h with ⟨pl, hpl, hplc⟩
      rw [← hplc]
      exact chunksOf_length_le 100 (by decide) _ pl hpl
    · obtain ⟨pid, pl, hcv, hle⟩ := flushVariationBuckets_calls_shape E
        (applyRows E opts (initState s₀) rows).variations_by_parent _ c h
      rw [hcv]
      exact hle

set_option maxRecDepth 100000 in
/-- C8, witness: 250 resolvable product rows in a non-dry-run reconcile
dispatch exactly the chunk sizes 100, 100, 50, and every dispatched call
is within the batch limit. -/
theorem apply_batch_chunking_witness :
    optsWet.dry_run = false ∧
    (applyRows envAllProducts optsWet (initState ()) rows250).product_payload.length = 250 ∧
    productCallSizes (applyRun envAllProducts optsWet () rows250).1.calls = [100, 100, 50] ∧
    (∀ c ∈ (applyRun envAllProducts optsWet () rows250).1.calls, callSize c ≤ 100) := by
  have h250 : (applyRows envAllProducts optsWet (initState ()) rows250).product_payload.length = 250 := by
    decide
  exact ⟨rfl, h250, apply_batch_chunking.1 Unit envAllProducts optsWet () rows250 rfl h250,
    apply_batch_chunking.2 Unit envAllProducts optsWet () rows250 rfl⟩
